import Mathlib

/-!
Verification development for the CommonJS-style module resolver in
`require/resolve.go` of the goja_nodejs repository.

The resolver is embedded shallowly: each Go function of `resolve.go`
(`resolve`, `loadNative`, `loadAsFileOrDirectory`, `loadAsFile`,
`loadIndex`, `loadAsDirectory`, `loadNodeModule`, `loadNodeModules`,
`loadModule`, `loadModuleFile`) becomes a case of one fuel-indexed
interpreter `interp`, with a named wrapper per function.  The mutable
`RequireModule` receiver becomes an explicit state record `RState`
(the two caches, a handle allocator, per-handle exports, and
instrumentation counters for body executions and native-loader runs).
External collaborators (source provider, package manifests, native
registries, global folders) are a `Config` record.  Module handles are
`Nat` identifiers, so "reference equality" of handles is equality of
identifiers.  Go's `path/filepath` functions (`Clean`, `Join`, `Dir`,
`Base`, POSIX rules) are reimplemented below with structural
recursion on character lists so that every definition evaluates
inside the kernel.
-/

namespace Goja

/-! ## Go `path/filepath` (POSIX) helpers

`goPathClean` implements Go's lexical `path.Clean` in segment-stack
form: split on `/`, drop empty and `.` segments, let `..` pop a
previous real segment (at the root, `..` segments are dropped when the
path is rooted and kept when it is not), and reassemble. -/

/-- Split a character list at `/`, keeping empty pieces (the behaviour
of Go's `strings.Split` on the separator). -/
def splitSlashAux : List Char → List Char → List (List Char)
  | [], acc => [acc.reverse]
  | c :: cs, acc =>
    if c = '/' then acc.reverse :: splitSlashAux cs []
    else splitSlashAux cs (c :: acc)

/-- Split a string at `/` into its (possibly empty) segments. -/
def splitSlash (s : String) : List String :=
  (splitSlashAux s.data []).map String.mk

/-- Does `pre` occur at the start of `s`?  (Go `strings.HasPrefix`.) -/
def beginsWithAux : List Char → List Char → Bool
  | [], _ => true
  | _ :: _, [] => false
  | p :: ps, c :: cs => p = c && beginsWithAux ps cs

/-- String-level wrapper for `beginsWithAux`. -/
def beginsWith (pre s : String) : Bool :=
  beginsWithAux pre.data s.data

/-- Join segments with `/` (Go `strings.Join(segs, "/")`). -/
def joinSlash : List String → String
  | [] => ""
  | [s] => s
  | s :: rest => s ++ "/" ++ joinSlash rest

/-- One step of Go `path.Clean`'s segment processing: `stack` holds the
already-cleaned segments in reverse order. -/
def cleanStep (rooted : Bool) (stack : List String) (seg : String) : List String :=
  if seg = "" ∨ seg = "." then stack
  else if seg = ".." then
    match stack with
    | s :: rest => if s = ".." then seg :: stack else rest
    | [] => if rooted then [] else [".."]
  else seg :: stack

/-- Go `path.Clean` (and `filepath.Clean` on POSIX): collapse `.`, `..`
and repeated separators; empty input cleans to `"."`. -/
def goPathClean (p : String) : String :=
  if p = "" then "."
  else
    let rooted := beginsWith "/" p
    let segs := splitSlash p
    let stack := segs.foldl (cleanStep rooted) []
    let body := joinSlash stack.reverse
    if rooted then
      if body = "" then "/" else "/" ++ body
    else
      if body = "" then "." else body

/-- Go `path.Join` restricted to two elements (the only arity
`resolve.go` uses): empty elements are dropped, the rest are joined
with `/` and cleaned; all-empty input yields `""`. -/
def goJoin (a b : String) : String :=
  if a = "" ∧ b = "" then ""
  else if a = "" then goPathClean b
  else if b = "" then goPathClean a
  else goPathClean (a ++ "/" ++ b)

/-- Characters of `p` up to and including the final `/`; empty if `p`
has no slash.  This is the piece Go `path.Dir` cleans. -/
def dirPart (p : String) : String :=
  String.mk ((p.data.reverse.dropWhile (fun c => c ≠ '/')).reverse)

/-- Go `path.Dir`: `Clean` of everything up to the final slash; a path
with no slash has directory `"."`. -/
def goDir (p : String) : String :=
  goPathClean (dirPart p)

/-- Drop trailing `/` characters (Go `path.Base` preprocessing). -/
def stripTrailingSlashes (p : String) : String :=
  String.mk ((p.data.reverse.dropWhile (fun c => c = '/')).reverse)

/-- Go `path.Base`: final element of the path; `""` gives `"."`, an
all-slash path gives `"/"`. -/
def goBase (p : String) : String :=
  if p = "" then "."
  else
    let p1 := stripTrailingSlashes p
    if p1 = "" then "/"
    else (splitSlash p1).getLastD p1

example : goPathClean "./name" = "name" := by decide
example : goPathClean "" = "." := by decide
example : goPathClean "/.." = "/" := by decide
example : goPathClean "a/../../b" = "../b" := by decide
example : goPathClean "/app/src/../util" = "/app/util" := by decide
example : goJoin "/app/src" "../util" = "/app/util" := by decide
example : goJoin "." "util" = "util" := by decide
example : goJoin "/" "/abs/x" = "/abs/x" := by decide
example : goDir ".." = "." := by decide
example : goDir "/x/util.js" = "/x" := by decide
example : goDir "b.js" = "." := by decide
example : goDir "." = "." := by decide
example : goDir "/" = "/" := by decide
example : goBase ".." = ".." := by decide
example : goBase "/a/node_modules" = "node_modules" := by decide
example : goBase "/" = "/" := by decide

/-! ## Association-list maps

Go's `map` fields of `RequireModule` are modelled as association
lists. -/

/-- Lookup (Go `m[k]`, `nil` becoming `none`). -/
def alookup {α β : Type} [DecidableEq α] : List (α × β) → α → Option β
  | [], _ => none
  | e :: rest, k => if e.1 = k then some e.2 else alookup rest k

/-- Remove a key (Go `delete(m, k)`). -/
def aerase {α β : Type} [DecidableEq α] : List (α × β) → α → List (α × β)
  | [], _ => []
  | e :: rest, k => if e.1 = k then aerase rest k else e :: aerase rest k

/-- Insert or overwrite a key (Go `m[k] = v`). -/
def ainsert {α β : Type} [DecidableEq α] (m : List (α × β)) (k : α) (v : β) :
    List (α × β) :=
  (k, v) :: aerase m k

/-- Counter read: `0` when the key is absent. -/
def acount {α : Type} [DecidableEq α] (m : List (α × Nat)) (k : α) : Nat :=
  (alookup m k).getD 0

/-- Counter increment. -/
def bump {α : Type} [DecidableEq α] (m : List (α × Nat)) (k : α) : List (α × Nat) :=
  ainsert m k (acount m k + 1)

theorem alookup_aerase_self {α β : Type} [DecidableEq α]
    (m : List (α × β)) (k : α) : alookup (aerase m k) k = none := by
  induction m with
  | nil => rfl
  | cons e rest ih =>
    by_cases he : e.1 = k
    · simpa [aerase, he] using ih
    · simpa [aerase, alookup, he] using ih

theorem alookup_ainsert_self {α β : Type} [DecidableEq α]
    (m : List (α × β)) (k : α) (v : β) : alookup (ainsert m k v) k = some v := by
  simp [alookup, ainsert]

theorem alookup_aerase_ne {α β : Type} [DecidableEq α]
    (m : List (α × β)) (k k' : α) (h : k' ≠ k) :
    alookup (aerase m k) k' = alookup m k' := by
  induction m with
  | nil => rfl
  | cons e rest ih =>
    simp only [aerase, alookup]
    by_cases he : e.1 = k
    · have hne : ¬ e.1 = k' := fun hh => h (hh ▸ he)
      rw [if_pos he, if_neg hne]
      exact ih
    · rw [if_neg he]
      simp only [alookup]
      by_cases he' : e.1 = k'
      · rw [if_pos he', if_pos he']
      · rw [if_neg he', if_neg he']
        exact ih

theorem alookup_ainsert_ne {α β : Type} [DecidableEq α]
    (m : List (α × β)) (k k' : α) (v : β) (h : k' ≠ k) :
    alookup (ainsert m k v) k' = alookup m k' := by
  have hk : k ≠ k' := fun hh => h hh.symm
  simp [ainsert, alookup, hk, alookup_aerase_ne m k k' h]

/-! ## Data model

Module handles are `Nat` identifiers allocated by a counter, so
"the identical handle (reference equality)" is equality of
identifiers.  A handle's mutable `exports` field lives in
`RState.exportsOf`.  `JsVal` is the fragment of engine values the
claims need: the initial empty object, opaque numbers, and a
reference to another module handle (so a module can observe which
handle a nested `require` returned). -/

/-- Engine values stored in a module's `exports` field. -/
inductive JsVal
  | emptyObj
  | num (n : Nat)
  | handleRef (h : Nat)
  deriving DecidableEq, Repr

/-- Errors of the resolver.  `resolve.go` itself produces
`IllegalModuleNameError` and `InvalidModuleError`; errors of the
external source provider are `sourceError` (propagated verbatim), and
an error raised by a module body during execution is `thrown`. -/
inductive Err
  | illegalModuleName
  | invalidModule
  | sourceError (path : String)
  | thrown
  deriving DecidableEq, Repr

/-- A module body is a sequence of effects: `req` performs a nested
`require` (its failure aborts the body, as an uncaught exception
does); `reqSet` performs a nested `require` and stores a reference to
the returned handle in this module's `exports` (so cyclic observations
are expressible); `setExports` assigns `module.exports`; `throwErr`
raises an execution error.  This models the compiled source units the
engine runs on behalf of `loadModuleFile`. -/
inductive Action
  | req (spec : String)
  | reqSet (spec : String)
  | setExports (v : JsVal)
  | throwErr
  deriving DecidableEq, Repr

instance {ε α : Type} [DecidableEq ε] [DecidableEq α] : DecidableEq (Except ε α) := fun a b =>
  match a, b with
  | Except.ok x, Except.ok y =>
    if h : x = y then isTrue (by rw [h]) else isFalse (by simp [h])
  | Except.error x, Except.error y =>
    if h : x = y then isTrue (by rw [h]) else isFalse (by simp [h])
  | Except.ok _, Except.error _ => isFalse (by simp)
  | Except.error _, Except.ok _ => isFalse (by simp)

/-- Result of `RunProgram` on a compiled source: either a value that is
not callable (the `AssertFunction` failure case of `loadModuleFile`)
or a callable module body. -/
inductive Prog
  | notCallable
  | fn (body : List Action)
  deriving DecidableEq, Repr

/-- Combined outcome of `getSource(path/package.json)` and
`json.Unmarshal` in `loadAsDirectory`: the file may be missing,
unparsable, or provide a `main` string (possibly empty). -/
inductive ManifestRead
  | noFile
  | badJson
  | parsed (main : String)
  deriving DecidableEq, Repr

/-- External collaborators of the resolver: the source provider, the
manifest reader, the instance-local native table `r.r.native`, the
process-wide native table `native`, and `r.r.globalFolders`.  A native
loader is modelled by the exports value it stores in the fresh module
handle (loaders do not re-enter `require`). -/
structure Config where
  getCompiledSource : String → Option Prog
  readManifest : String → ManifestRead
  nativeLocal : String → Option JsVal
  nativeGlobal : String → Option JsVal
  globalFolders : List String

/-- Mutable state of a `RequireModule`: the path-keyed cache
`r.modules`, the bare-specifier cache `r.nodeModules`, the handle
allocator, each handle's current `exports`, and two instrumentation
counters: how often each path's module body was executed and how often
each native loader ran. -/
structure RState where
  modules : List (String × Nat)
  nodeModules : List (String × Nat)
  nextId : Nat
  exportsOf : List (Nat × JsVal)
  execCount : List (String × Nat)
  nativeCount : List (String × Nat)
  deriving DecidableEq, Repr

/-- The state of a freshly constructed `RequireModule`. -/
def initState : RState :=
  { modules := [], nodeModules := [], nextId := 0,
    exportsOf := [], execCount := [], nativeCount := [] }

/-- `createModuleObject` (resolve.go:174-178): a fresh handle whose
`exports` is a fresh empty object. -/
def createModuleObject (st : RState) : Nat × RState :=
  (st.nextId,
   { st with
       nextId := st.nextId + 1,
       exportsOf := ainsert st.exportsOf st.nextId JsVal.emptyObj })

/-- The two-tier native lookup of `loadNative` (resolve.go:62-65):
the instance-local table `r.r.native` shadows the global table. -/
def nativeOf (C : Config) (path : String) : Option JsVal :=
  match C.nativeLocal path with
  | some l => some l
  | none => C.nativeGlobal path

/-- `loadNative` (resolve.go:56-75): return the cached module under
`path` if present; otherwise consult the instance-local then the
global native table; on a hit create a module object, cache it under
`path`, and run the loader; otherwise fail with `InvalidModuleError`. -/
def loadNative (C : Config) (st : RState) (path : String) : Except Err Nat × RState :=
  match alookup st.modules path with
  | some m => (Except.ok m, st)
  | none =>
    match nativeOf C path with
    | some v =>
      let pr := createModuleObject st
      let st2 := { pr.2 with modules := ainsert pr.2.modules path pr.1 }
      (Except.ok pr.1,
       { st2 with
           exportsOf := ainsert st2.exportsOf pr.1 v,
           nativeCount := bump st2.nativeCount path })
    | none => (Except.error Err.invalidModule, st)

/-- The relative/absolute classification of `resolve` (resolve.go:33-35),
applied to the original, pre-normalization specifier. -/
def isRelativeSpec (origPath : String) : Bool :=
  beginsWith "./" origPath || beginsWith "/" origPath || beginsWith "../" origPath
    || origPath = "." || origPath = ".."

/-! ## The interpreter

The mutually recursive functions of `resolve.go` (plus the two loops
inside `loadNodeModules` and the execution of module bodies) are the
cases of one fuel-indexed interpreter; `none` means the fuel ran out.
Fuel strictly decreases on every internal call, so the recursion is
structural and every run evaluates inside the kernel. -/

/-- The Go early-return idiom `if module, err = try(..); err == nil
{ return }`: on success return it unchanged, on failure continue from
the (possibly mutated) state. -/
def tryNext (r : Option (Except Err Nat × RState))
    (k : RState → Option (Except Err Nat × RState)) :
    Option (Except Err Nat × RState) :=
  match r with
  | none => none
  | some (Except.ok m, st1) => some (Except.ok m, st1)
  | some (Except.error _, st1) => k st1

/-- Propagate an error, and on success post-process the state (the
cache-insertion sites of `resolve`). -/
def onOk (r : Option (Except Err Nat × RState))
    (f : Nat → RState → RState) : Option (Except Err Nat × RState) :=
  match r with
  | none => none
  | some (Except.ok m, st1) => some (Except.ok m, f m st1)
  | some (Except.error e, st1) => some (Except.error e, st1)

/-- Propagate an error, and on success continue with the result (a
nested `require` inside a module body). -/
def seqOk (r : Option (Except Err Nat × RState))
    (k : Nat → RState → Option (Except Err Nat × RState)) :
    Option (Except Err Nat × RState) :=
  match r with
  | none => none
  | some (Except.ok m, st1) => k m st1
  | some (Except.error e, st1) => some (Except.error e, st1)

/-- Named entry points of the interpreter, one per function of
`resolve.go`; `tryGlobals` and `nodeLoop` are the two loops inside
`loadNodeModules`, and `runActs` is the engine executing a compiled
module body (nested `require` calls re-enter `resolve` with the
caller's directory, as `getCurrentModulePath` computes it). -/
inductive Call
  | resolve (callerDir origPath : String)
  | loadAsFileOrDirectory (path : String)
  | loadAsFile (path : String)
  | loadIndex (path : String)
  | loadAsDirectory (path : String)
  | loadNodeModule (path start : String)
  | loadNodeModules (path start : String)
  | tryGlobals (path : String) (dirs : List String)
  | nodeLoop (path start : String)
  | loadModule (path : String)
  | loadModuleFile (path : String) (m : Nat)
  | runActs (selfPath : String) (m : Nat) (acts : List Action)

/-- The resolver.  Each `Call` case is a line-by-line transcription of
the corresponding function of `resolve.go`; the state is threaded
explicitly where Go mutates the receiver. -/
def interp : Nat → Config → Call → RState → Option (Except Err Nat × RState)
  | 0, _, _, _ => none
  | Nat.succ fuel, C, c, st =>
    match c with
    | Call.resolve callerDir origPath =>
      -- resolve (resolve.go:13-54)
      let path := goPathClean origPath
      if path = "" then some (Except.error Err.illegalModuleName, st)
      else
        match loadNative C st path with
        | (Except.ok m, st1) => some (Except.ok m, st1)
        | (Except.error _, _) =>
          let start := if beginsWith "/" origPath then "/" else callerDir
          let p := goJoin start path
          if isRelativeSpec origPath then
            match alookup st.modules p with
            | some m => some (Except.ok m, st)
            | none =>
              onOk (interp fuel C (Call.loadAsFileOrDirectory p) st)
                (fun m st1 => { st1 with modules := ainsert st1.modules p m })
          else
            match alookup st.nodeModules p with
            | some m => some (Except.ok m, st)
            | none =>
              onOk (interp fuel C (Call.loadNodeModules path start) st)
                (fun m st1 => { st1 with nodeModules := ainsert st1.nodeModules p m })
    | Call.loadAsFileOrDirectory path =>
      -- loadAsFileOrDirectory (resolve.go:77-84)
      tryNext (interp fuel C (Call.loadAsFile path) st)
        (fun st1 => interp fuel C (Call.loadAsDirectory path) st1)
    | Call.loadAsFile path =>
      -- loadAsFile (resolve.go:86-98)
      tryNext (interp fuel C (Call.loadModule path) st)
        (fun st1 =>
          tryNext (interp fuel C (Call.loadModule (path ++ ".js")) st1)
            (fun st2 => interp fuel C (Call.loadModule (path ++ ".json")) st2))
    | Call.loadIndex path =>
      -- loadIndex (resolve.go:100-108)
      tryNext (interp fuel C (Call.loadModule (goJoin path "index.js")) st)
        (fun st1 => interp fuel C (Call.loadModule (goJoin path "index.json")) st1)
    | Call.loadAsDirectory path =>
      -- loadAsDirectory (resolve.go:110-130)
      match C.readManifest (goJoin path "package.json") with
      | ManifestRead.noFile => interp fuel C (Call.loadIndex path) st
      | ManifestRead.badJson => interp fuel C (Call.loadIndex path) st
      | ManifestRead.parsed mainv =>
        if mainv = "" then interp fuel C (Call.loadIndex path) st
        else
          let m := goJoin path mainv
          tryNext (interp fuel C (Call.loadAsFile m) st)
            (fun st1 => interp fuel C (Call.loadIndex m) st1)
    | Call.loadNodeModule path start =>
      -- loadNodeModule (resolve.go:132-134)
      interp fuel C (Call.loadAsFileOrDirectory (goJoin start path)) st
    | Call.loadNodeModules path start =>
      -- loadNodeModules (resolve.go:136-163): global folders first
      tryNext (interp fuel C (Call.tryGlobals path C.globalFolders) st)
        (fun st1 => interp fuel C (Call.nodeLoop path start) st1)
    | Call.tryGlobals path dirs =>
      -- the `for _, dir := range r.r.globalFolders` loop (resolve.go:137-141)
      match dirs with
      | [] => some (Except.error Err.invalidModule, st)
      | d :: rest =>
        tryNext (interp fuel C (Call.loadNodeModule path d) st)
          (fun st1 => interp fuel C (Call.tryGlobals path rest) st1)
    | Call.nodeLoop path start =>
      -- the ascent `for` loop (resolve.go:142-160, and line 162's error)
      let p := if goBase start ≠ "node_modules" then goJoin start "node_modules" else start
      tryNext (interp fuel C (Call.loadNodeModule path p) st)
        (fun st1 =>
          if start = ".." then some (Except.error Err.invalidModule, st1)
          else
            let parent := goDir start
            if parent = start then some (Except.error Err.invalidModule, st1)
            else interp fuel C (Call.nodeLoop path parent) st1)
    | Call.loadModule path =>
      -- loadModule (resolve.go:180-193)
      match alookup st.modules path with
      | some m => some (Except.ok m, st)
      | none =>
        let pr := createModuleObject st
        let st2 := { pr.2 with modules := ainsert pr.2.modules path pr.1 }
        match interp fuel C (Call.loadModuleFile path pr.1) st2 with
        | none => none
        | some (Except.ok _, st3) => some (Except.ok pr.1, st3)
        | some (Except.error e, st3) =>
          some (Except.error e, { st3 with modules := aerase st3.modules path })
    | Call.loadModuleFile path m =>
      -- loadModuleFile (resolve.go:195-225)
      match C.getCompiledSource path with
      | none => some (Except.error (Err.sourceError path), st)
      | some Prog.notCallable => some (Except.error Err.invalidModule, st)
      | some (Prog.fn acts) =>
        interp fuel C (Call.runActs path m acts)
          { st with execCount := bump st.execCount path }
    | Call.runActs selfPath m acts =>
      -- the engine running the module body; nested requires resolve
      -- with caller directory `goDir selfPath` (getCurrentModulePath)
      match acts with
      | [] => some (Except.ok m, st)
      | Action.setExports v :: rest =>
        interp fuel C (Call.runActs selfPath m rest)
          { st with exportsOf := ainsert st.exportsOf m v }
      | Action.throwErr :: _ => some (Except.error Err.thrown, st)
      | Action.req spec :: rest =>
        seqOk (interp fuel C (Call.resolve (goDir selfPath) spec) st)
          (fun _ st1 => interp fuel C (Call.runActs selfPath m rest) st1)
      | Action.reqSet spec :: rest =>
        seqOk (interp fuel C (Call.resolve (goDir selfPath) spec) st)
          (fun h st1 =>
            interp fuel C (Call.runActs selfPath m rest)
              { st1 with exportsOf := ainsert st1.exportsOf m (JsVal.handleRef h) })

/-- `resolve` of resolve.go, with the caller's module directory passed
explicitly (the host obtains it by call-stack introspection). -/
def resolve (fuel : Nat) (C : Config) (callerDir spec : String) (st : RState) :
    Option (Except Err Nat × RState) :=
  interp fuel C (Call.resolve callerDir spec) st

/-- `loadAsFileOrDirectory` of resolve.go. -/
def loadAsFileOrDirectory (fuel : Nat) (C : Config) (path : String) (st : RState) :
    Option (Except Err Nat × RState) :=
  interp fuel C (Call.loadAsFileOrDirectory path) st

/-- `loadAsFile` of resolve.go. -/
def loadAsFile (fuel : Nat) (C : Config) (path : String) (st : RState) :
    Option (Except Err Nat × RState) :=
  interp fuel C (Call.loadAsFile path) st

/-- `loadIndex` of resolve.go. -/
def loadIndex (fuel : Nat) (C : Config) (path : String) (st : RState) :
    Option (Except Err Nat × RState) :=
  interp fuel C (Call.loadIndex path) st

/-- `loadAsDirectory` of resolve.go. -/
def loadAsDirectory (fuel : Nat) (C : Config) (path : String) (st : RState) :
    Option (Except Err Nat × RState) :=
  interp fuel C (Call.loadAsDirectory path) st

/-- `loadNodeModule` of resolve.go. -/
def loadNodeModule (fuel : Nat) (C : Config) (path start : String) (st : RState) :
    Option (Except Err Nat × RState) :=
  interp fuel C (Call.loadNodeModule path start) st

/-- `loadNodeModules` of resolve.go. -/
def loadNodeModules (fuel : Nat) (C : Config) (path start : String) (st : RState) :
    Option (Except Err Nat × RState) :=
  interp fuel C (Call.loadNodeModules path start) st

/-- The global-folders loop of `loadNodeModules`. -/
def tryGlobals (fuel : Nat) (C : Config) (path : String) (dirs : List String) (st : RState) :
    Option (Except Err Nat × RState) :=
  interp fuel C (Call.tryGlobals path dirs) st

/-- The node_modules ascent loop of `loadNodeModules`. -/
def nodeLoop (fuel : Nat) (C : Config) (path start : String) (st : RState) :
    Option (Except Err Nat × RState) :=
  interp fuel C (Call.nodeLoop path start) st

/-- `loadModule` of resolve.go. -/
def loadModule (fuel : Nat) (C : Config) (path : String) (st : RState) :
    Option (Except Err Nat × RState) :=
  interp fuel C (Call.loadModule path) st

/-- `loadModuleFile` of resolve.go. -/
def loadModuleFile (fuel : Nat) (C : Config) (path : String) (m : Nat) (st : RState) :
    Option (Except Err Nat × RState) :=
  interp fuel C (Call.loadModuleFile path m) st

/-! ## Basic facts and inversion principles -/

theorem slash_append_ne_empty (body : String) : "/" ++ body ≠ "" := by
  intro h
  have hlen : ("/" ++ body).length = ("" : String).length := by rw [h]
  rw [String.length_append] at hlen
  have h1 : ("/" : String).length = 1 := rfl
  have h0 : ("" : String).length = 0 := rfl
  omega

/-- Go `path.Clean` never returns the empty string (so the
`IllegalModuleNameError` branch of `resolve` is dead code). -/
theorem goPathClean_ne_empty (p : String) : goPathClean p ≠ "" := by
  unfold goPathClean
  by_cases h0 : p = ""
  · simp [h0]
  · rw [if_neg h0]
    dsimp only
    split
    · split
      · decide
      · exact slash_append_ne_empty _
    · split
      · decide
      · rename_i hbody
        exact hbody

theorem tryNext_eq_some {r : Option (Except Err Nat × RState)}
    {k : RState → Option (Except Err Nat × RState)} {out : Except Err Nat} {st' : RState}
    (h : tryNext r k = some (out, st')) :
    (∃ m, r = some (Except.ok m, st') ∧ out = Except.ok m)
    ∨ (∃ e st1, r = some (Except.error e, st1) ∧ k st1 = some (out, st')) := by
  rcases r with _ | ⟨res, st1⟩
  · simp [tryNext] at h
  · rcases res with e | m
    · simp only [tryNext] at h
      exact Or.inr ⟨e, st1, rfl, h⟩
    · simp only [tryNext, Option.some.injEq, Prod.mk.injEq] at h
      obtain ⟨h1, h2⟩ := h
      subst h2
      exact Or.inl ⟨m, rfl, h1.symm⟩

theorem onOk_eq_some {r : Option (Except Err Nat × RState)}
    {f : Nat → RState → RState} {out : Except Err Nat} {st' : RState}
    (h : onOk r f = some (out, st')) :
    (∃ m st1, r = some (Except.ok m, st1) ∧ out = Except.ok m ∧ st' = f m st1)
    ∨ (∃ e st1, r = some (Except.error e, st1) ∧ out = Except.error e ∧ st' = st1) := by
  rcases r with _ | ⟨res, st1⟩
  · simp [onOk] at h
  · rcases res with e | m
    · simp only [onOk, Option.some.injEq, Prod.mk.injEq] at h
      obtain ⟨h1, h2⟩ := h
      exact Or.inr ⟨e, st1, rfl, h1.symm, h2.symm⟩
    · simp only [onOk, Option.some.injEq, Prod.mk.injEq] at h
      obtain ⟨h1, h2⟩ := h
      exact Or.inl ⟨m, st1, rfl, h1.symm, h2.symm⟩

theorem seqOk_eq_some {r : Option (Except Err Nat × RState)}
    {k : Nat → RState → Option (Except Err Nat × RState)} {out : Except Err Nat} {st' : RState}
    (h : seqOk r k = some (out, st')) :
    (∃ m st1, r = some (Except.ok m, st1) ∧ k m st1 = some (out, st'))
    ∨ (∃ e st1, r = some (Except.error e, st1) ∧ out = Except.error e ∧ st' = st1) := by
  rcases r with _ | ⟨res, st1⟩
  · simp [seqOk] at h
  · rcases res with e | m
    · simp only [seqOk, Option.some.injEq, Prod.mk.injEq] at h
      obtain ⟨h1, h2⟩ := h
      exact Or.inr ⟨e, st1, rfl, h1.symm, h2.symm⟩
    · simp only [seqOk] at h
      exact Or.inl ⟨m, st1, rfl, h⟩

/-! ## The preservation invariant

`presMod st st'` says every path-cache binding of `st` survives into
`st'` unchanged.  No interpreter step ever overwrites or deletes a
live `modules` binding: insertions happen only at keys that were just
observed absent, and the only deletion (`loadModule`'s failure path)
concerns a key that was absent on entry.  Consequently a handle cached
for a path stays cached for that path for the lifetime of the runtime
— the claims about cache hits, cycle tolerance and "executes once"
all rest on this. -/

/-- Every `modules` binding of `st` is still present in `st'`. -/
def presMod (st st' : RState) : Prop :=
  ∀ P h, alookup st.modules P = some h → alookup st'.modules P = some h

theorem presMod_refl (st : RState) : presMod st st := fun _ _ hh => hh

theorem presMod_trans {a b c : RState} (h1 : presMod a b) (h2 : presMod b c) :
    presMod a c := fun P h hh => h2 P h (h1 P h hh)

/-- What an error result of each entry point can be: the two
`loadNodeModules` loops and `loadNodeModules` itself fail with
`InvalidModuleError` (resolve.go:162); no entry point ever produces
`IllegalModuleNameError` (since `goPathClean` never returns `""`). -/
def errInv : Call → Err → Prop
  | Call.loadNodeModules _ _, e => e = Err.invalidModule
  | Call.tryGlobals _ _, e => e = Err.invalidModule
  | Call.nodeLoop _ _, e => e = Err.invalidModule
  | _, e => e ≠ Err.illegalModuleName

/-- What a successful result of each entry point guarantees: a
successful `loadModule path` leaves the returned handle cached under
`path`, and every successful file/directory/node_modules load leaves
it cached under the concrete path that succeeded. -/
def okInv : Call → RState → Nat → Prop
  | Call.loadModule p, st', m => alookup st'.modules p = some m
  | Call.loadAsFileOrDirectory _, st', m => ∃ q, alookup st'.modules q = some m
  | Call.loadAsFile _, st', m => ∃ q, alookup st'.modules q = some m
  | Call.loadIndex _, st', m => ∃ q, alookup st'.modules q = some m
  | Call.loadAsDirectory _, st', m => ∃ q, alookup st'.modules q = some m
  | Call.loadNodeModule _ _, st', m => ∃ q, alookup st'.modules q = some m
  | Call.loadNodeModules _ _, st', m => ∃ q, alookup st'.modules q = some m
  | Call.tryGlobals _ _, st', m => ∃ q, alookup st'.modules q = some m
  | Call.nodeLoop _ _, st', m => ∃ q, alookup st'.modules q = some m
  | _, _, _ => True

theorem loadNative_inv (C : Config) (st : RState) (path : String) (res : Except Err Nat)
    (st1 : RState) (h : loadNative C st path = (res, st1)) :
    presMod st st1 ∧ (∀ e, res = Except.error e → e = Err.invalidModule) := by
  unfold loadNative at h
  split at h
  · simp only [Prod.mk.injEq] at h
    obtain ⟨h1, h2⟩ := h
    subst h2
    exact ⟨presMod_refl st, fun e he => by rw [← h1] at he; cases he⟩
  · rename_i hmiss
    split at h
    · rename_i v hv
      simp only [Prod.mk.injEq] at h
      obtain ⟨h1, h2⟩ := h
      subst h2
      refine ⟨?_, fun e he => by rw [← h1] at he; cases he⟩
      intro P hh hP
      have hne : P ≠ path := by
        intro heq
        rw [heq, hmiss] at hP
        cases hP
      simpa [alookup_ainsert_ne _ _ _ _ hne, createModuleObject] using hP
    · simp only [Prod.mk.injEq] at h
      obtain ⟨h1, h2⟩ := h
      subst h2
      refine ⟨presMod_refl st, fun e he => ?_⟩
      rw [← h1] at he
      cases he
      rfl

/-- Main invariant of the interpreter, by induction on the fuel: every
completed call preserves existing path-cache bindings, errors satisfy
`errInv`, and successes satisfy `okInv`. -/
theorem interp_inv :
    ∀ fuel C c st out st', interp fuel C c st = some (out, st') →
      presMod st st'
      ∧ (∀ e, out = Except.error e → errInv c e)
      ∧ (∀ m, out = Except.ok m → okInv c st' m) := by
  intro fuel
  induction fuel with
  | zero =>
    intro C c st out st' h
    simp [interp] at h
  | succ fuel ih =>
    intro C c st out st' h
    cases c with
    | resolve callerDir origPath =>
      simp only [interp] at h
      split at h
      · rename_i hempty
        exact absurd hempty (goPathClean_ne_empty origPath)
      · split at h
        · rename_i m st1 hln
          simp only [Option.some.injEq, Prod.mk.injEq] at h
          obtain ⟨hout, hst⟩ := h
          subst hst
          refine ⟨(loadNative_inv C st _ _ _ hln).1, ?_, fun _ _ => trivial⟩
          intro e he
          rw [← hout] at he
          cases he
        · split at h
          · -- relative/absolute branch
            split at h
            · rename_i m hhit
              simp only [Option.some.injEq, Prod.mk.injEq] at h
              obtain ⟨hout, hst⟩ := h
              subst hst
              refine ⟨presMod_refl st, ?_, fun _ _ => trivial⟩
              intro e he
              rw [← hout] at he
              cases he
            · rename_i hmiss
              rcases onOk_eq_some h with ⟨m, st1, hsub, hout, hst⟩ | ⟨e, st1, hsub, hout, hst⟩
              · obtain ⟨hp, _, _⟩ := ih C _ st _ _ hsub
                subst hst
                refine ⟨?_, ?_, fun _ _ => trivial⟩
                · intro P hh hP
                  have h1 := hp P hh hP
                  have hne : P ≠ goJoin (if beginsWith "/" origPath = true then "/" else callerDir)
                      (goPathClean origPath) := by
                    intro heq
                    rw [heq, hmiss] at hP
                    cases hP
                  show alookup (ainsert st1.modules _ m) P = some hh
                  rw [alookup_ainsert_ne _ _ _ _ hne]
                  exact h1
                · intro e he
                  rw [hout] at he
                  cases he
              · obtain ⟨hp, her, _⟩ := ih C _ st _ _ hsub
                subst hst
                refine ⟨hp, ?_, fun m hm => by rw [hout] at hm; cases hm⟩
                intro e' he'
                rw [hout] at he'
                cases he'
                exact her _ rfl
          · -- bare branch
            split at h
            · rename_i m hhit
              simp only [Option.some.injEq, Prod.mk.injEq] at h
              obtain ⟨hout, hst⟩ := h
              subst hst
              refine ⟨presMod_refl st, ?_, fun _ _ => trivial⟩
              intro e he
              rw [← hout] at he
              cases he
            · rename_i hmiss
              rcases onOk_eq_some h with ⟨m, st1, hsub, hout, hst⟩ | ⟨e, st1, hsub, hout, hst⟩
              · obtain ⟨hp, _, _⟩ := ih C _ st _ _ hsub
                subst hst
                exact ⟨hp, (fun e he => by rw [hout] at he; cases he), fun _ _ => trivial⟩
              · obtain ⟨hp, her, _⟩ := ih C _ st _ _ hsub
                subst hst
                refine ⟨hp, ?_, fun m hm => by rw [hout] at hm; cases hm⟩
                intro e' he'
                rw [hout] at he'
                cases he'
                have := her _ rfl
                simp only [errInv] at this
                rw [this]
                simp [errInv]
    | loadAsFileOrDirectory path =>
      simp only [interp] at h
      rcases tryNext_eq_some h with ⟨m, hsub, hout⟩ | ⟨e, st1, hsub, hk⟩
      · obtain ⟨hp, _, hok⟩ := ih C _ st _ _ hsub
        refine ⟨hp, (fun e he => by rw [hout] at he; cases he), ?_⟩
        intro mm hmm
        rw [hout] at hmm
        cases hmm
        have := hok m rfl
        simp only [okInv] at this ⊢
        exact this
      · obtain ⟨hp1, _, _⟩ := ih C _ st _ _ hsub
        obtain ⟨hp2, her, hok⟩ := ih C _ st1 _ _ hk
        refine ⟨presMod_trans hp1 hp2, ?_, ?_⟩
        · intro e' he'
          have := her e' he'
          simpa [errInv] using this
        · intro mm hmm
          have := hok mm hmm
          simpa [okInv] using this
    | loadAsFile path =>
      simp only [interp] at h
      rcases tryNext_eq_some h with ⟨m, hsub, hout⟩ | ⟨e, st1, hsub, hk⟩
      · obtain ⟨hp, _, hok⟩ := ih C _ st _ _ hsub
        refine ⟨hp, (fun e he => by rw [hout] at he; cases he), ?_⟩
        intro mm hmm
        rw [hout] at hmm
        cases hmm
        exact ⟨path, (hok m rfl : okInv (Call.loadModule path) st' m)⟩
      · obtain ⟨hp1, _, _⟩ := ih C _ st _ _ hsub
        rcases tryNext_eq_some hk with ⟨m, hsub2, hout⟩ | ⟨e2, st2, hsub2, hk2⟩
        · obtain ⟨hp2, _, hok⟩ := ih C _ st1 _ _ hsub2
          refine ⟨presMod_trans hp1 hp2, (fun e he => by rw [hout] at he; cases he), ?_⟩
          intro mm hmm
          rw [hout] at hmm
          cases hmm
          exact ⟨path ++ ".js", (hok m rfl : okInv (Call.loadModule (path ++ ".js")) st' m)⟩
        · obtain ⟨hp2, _, _⟩ := ih C _ st1 _ _ hsub2
          obtain ⟨hp3, her, hok⟩ := ih C _ st2 _ _ hk2
          refine ⟨presMod_trans hp1 (presMod_trans hp2 hp3), ?_, ?_⟩
          · intro e' he'
            have := her e' he'
            simpa [errInv] using this
          · intro mm hmm
            exact ⟨path ++ ".json", (hok mm hmm : okInv (Call.loadModule (path ++ ".json")) st' mm)⟩
    | loadIndex path =>
      simp only [interp] at h
      rcases tryNext_eq_some h with ⟨m, hsub, hout⟩ | ⟨e, st1, hsub, hk⟩
      · obtain ⟨hp, _, hok⟩ := ih C _ st _ _ hsub
        refine ⟨hp, (fun e he => by rw [hout] at he; cases he), ?_⟩
        intro mm hmm
        rw [hout] at hmm
        cases hmm
        exact ⟨goJoin path "index.js",
          (hok m rfl : okInv (Call.loadModule (goJoin path "index.js")) st' m)⟩
      · obtain ⟨hp1, _, _⟩ := ih C _ st _ _ hsub
        obtain ⟨hp2, her, hok⟩ := ih C _ st1 _ _ hk
        refine ⟨presMod_trans hp1 hp2, ?_, ?_⟩
        · intro e' he'
          have := her e' he'
          simpa [errInv] using this
        · intro mm hmm
          exact ⟨goJoin path "index.json",
            (hok mm hmm : okInv (Call.loadModule (goJoin path "index.json")) st' mm)⟩
    | loadAsDirectory path =>
      simp only [interp] at h
      split at h
      · obtain ⟨hp, her, hok⟩ := ih C _ st _ _ h
        exact ⟨hp, (fun e he => by have := her e he; simpa [errInv] using this),
          fun m hm => by have := hok m hm; simpa [okInv] using this⟩
      · obtain ⟨hp, her, hok⟩ := ih C _ st _ _ h
        exact ⟨hp, (fun e he => by have := her e he; simpa [errInv] using this),
          fun m hm => by have := hok m hm; simpa [okInv] using this⟩
      · split at h
        · obtain ⟨hp, her, hok⟩ := ih C _ st _ _ h
          exact ⟨hp, (fun e he => by have := her e he; simpa [errInv] using this),
            fun m hm => by have := hok m hm; simpa [okInv] using this⟩
        · rcases tryNext_eq_some h with ⟨m, hsub, hout⟩ | ⟨e, st1, hsub, hk⟩
          · obtain ⟨hp, _, hok⟩ := ih C _ st _ _ hsub
            refine ⟨hp, (fun e he => by rw [hout] at he; cases he), ?_⟩
            intro mm hmm
            rw [hout] at hmm
            cases hmm
            have := hok m rfl
            simp only [okInv] at this ⊢
            exact this
          · obtain ⟨hp1, _, _⟩ := ih C _ st _ _ hsub
            obtain ⟨hp2, her, hok⟩ := ih C _ st1 _ _ hk
            refine ⟨presMod_trans hp1 hp2, ?_, ?_⟩
            · intro e' he'
              have := her e' he'
              simpa [errInv] using this
            · intro mm hmm
              have := hok mm hmm
              simpa [okInv] using this
    | loadNodeModule path start =>
      simp only [interp] at h
      obtain ⟨hp, her, hok⟩ := ih C _ st _ _ h
      exact ⟨hp, (fun e he => by have := her e he; simpa [errInv] using this),
        fun m hm => by have := hok m hm; simpa [okInv] using this⟩
    | loadNodeModules path start =>
      simp only [interp] at h
      rcases tryNext_eq_some h with ⟨m, hsub, hout⟩ | ⟨e, st1, hsub, hk⟩
      · obtain ⟨hp, _, hok⟩ := ih C _ st _ _ hsub
        refine ⟨hp, (fun e he => by rw [hout] at he; cases he), ?_⟩
        intro mm hmm
        rw [hout] at hmm
        cases hmm
        have := hok m rfl
        simp only [okInv] at this ⊢
        exact this
      · obtain ⟨hp1, _, _⟩ := ih C _ st _ _ hsub
        obtain ⟨hp2, her, hok⟩ := ih C _ st1 _ _ hk
        refine ⟨presMod_trans hp1 hp2, ?_, ?_⟩
        · intro e' he'
          have := her e' he'
          simpa [errInv] using this
        · intro mm hmm
          have := hok mm hmm
          simpa [okInv] using this
    | tryGlobals path dirs =>
      simp only [interp] at h
      cases dirs with
      | nil =>
        simp only [Option.some.injEq, Prod.mk.injEq] at h
        obtain ⟨hout, hst⟩ := h
        subst hst
        refine ⟨presMod_refl st, ?_, fun m hm => by rw [← hout] at hm; cases hm⟩
        intro e he
        rw [← hout] at he
        cases he
        rfl
      | cons d rest =>
        rcases tryNext_eq_some h with ⟨m, hsub, hout⟩ | ⟨e, st1, hsub, hk⟩
        · obtain ⟨hp, _, hok⟩ := ih C _ st _ _ hsub
          refine ⟨hp, (fun e he => by rw [hout] at he; cases he), ?_⟩
          intro mm hmm
          rw [hout] at hmm
          cases hmm
          have := hok m rfl
          simp only [okInv] at this ⊢
          exact this
        · obtain ⟨hp1, _, _⟩ := ih C _ st _ _ hsub
          obtain ⟨hp2, her, hok⟩ := ih C _ st1 _ _ hk
          refine ⟨presMod_trans hp1 hp2, ?_, ?_⟩
          · intro e' he'
            have := her e' he'
            simpa [errInv] using this
          · intro mm hmm
            have := hok mm hmm
            simpa [okInv] using this
    | nodeLoop path start =>
      simp only [interp] at h
      rcases tryNext_eq_some h with ⟨m, hsub, hout⟩ | ⟨e, st1, hsub, hk⟩
      · obtain ⟨hp, _, hok⟩ := ih C _ st _ _ hsub
        refine ⟨hp, (fun e he => by rw [hout] at he; cases he), ?_⟩
        intro mm hmm
        rw [hout] at hmm
        cases hmm
        have := hok m rfl
        simp only [okInv] at this ⊢
        exact this
      · obtain ⟨hp1, _, _⟩ := ih C _ st _ _ hsub
        split at hk
        · simp only [Option.some.injEq, Prod.mk.injEq] at hk
          obtain ⟨hout, hst⟩ := hk
          subst hst
          refine ⟨hp1, ?_, fun m hm => by rw [← hout] at hm; cases hm⟩
          intro e' he'
          rw [← hout] at he'
          cases he'
          rfl
        · split at hk
          · simp only [Option.some.injEq, Prod.mk.injEq] at hk
            obtain ⟨hout, hst⟩ := hk
            subst hst
            refine ⟨hp1, ?_, fun m hm => by rw [← hout] at hm; cases hm⟩
            intro e' he'
            rw [← hout] at he'
            cases he'
            rfl
          · obtain ⟨hp2, her, hok⟩ := ih C _ st1 _ _ hk
            refine ⟨presMod_trans hp1 hp2, ?_, ?_⟩
            · intro e' he'
              have := her e' he'
              simpa [errInv] using this
            · intro mm hmm
              have := hok mm hmm
              simpa [okInv] using this
    | loadModule path =>
      simp only [interp] at h
      split at h
      · rename_i m hhit
        simp only [Option.some.injEq, Prod.mk.injEq] at h
        obtain ⟨hout, hst⟩ := h
        subst hst
        refine ⟨presMod_refl st, ?_, ?_⟩
        · intro e he
          rw [← hout] at he
          cases he
        · intro mm hmm
          rw [← hout] at hmm
          cases hmm
          exact hhit
      · rename_i hmiss
        split at h
        · exact absurd h (by simp)
        · rename_i st3 hsub
          simp only [Option.some.injEq, Prod.mk.injEq] at h
          obtain ⟨hout, hst⟩ := h
          subst hst
          obtain ⟨hp, _, _⟩ := ih C _ _ _ _ hsub
          have hself : alookup
              ({ (createModuleObject st).2 with
                  modules := ainsert (createModuleObject st).2.modules path
                    (createModuleObject st).1 }).modules path = some (createModuleObject st).1 :=
            alookup_ainsert_self _ _ _
          refine ⟨?_, (fun e he => by rw [← hout] at he; cases he), ?_⟩
          · intro P hh hP
            have hne : P ≠ path := by
              intro heq
              rw [heq, hmiss] at hP
              cases hP
            refine hp P hh ?_
            show alookup (ainsert (createModuleObject st).2.modules path
              (createModuleObject st).1) P = some hh
            rw [alookup_ainsert_ne _ _ _ _ hne]
            exact hP
          · intro mm hmm
            rw [← hout] at hmm
            cases hmm
            exact hp path _ hself
        · rename_i e3 st3 hsub
          simp only [Option.some.injEq, Prod.mk.injEq] at h
          obtain ⟨hout, hst⟩ := h
          subst hst
          obtain ⟨hp, her, _⟩ := ih C _ _ _ _ hsub
          refine ⟨?_, ?_, fun m hm => by rw [← hout] at hm; cases hm⟩
          · intro P hh hP
            have hne : P ≠ path := by
              intro heq
              rw [heq, hmiss] at hP
              cases hP
            have h2 : alookup (ainsert (createModuleObject st).2.modules path
                (createModuleObject st).1) P = some hh := by
              rw [alookup_ainsert_ne _ _ _ _ hne]
              exact hP
            have h3 := hp P hh h2
            show alookup (aerase st3.modules path) P = some hh
            rw [alookup_aerase_ne _ _ _ hne]
            exact h3
          · intro e' he'
            rw [← hout] at he'
            cases he'
            have := her e3 rfl
            simpa [errInv] using this
    | loadModuleFile path m =>
      simp only [interp] at h
      split at h
      · simp only [Option.some.injEq, Prod.mk.injEq] at h
        obtain ⟨hout, hst⟩ := h
        subst hst
        refine ⟨presMod_refl st, ?_, fun mm hm => by rw [← hout] at hm; cases hm⟩
        intro e he
        rw [← hout] at he
        cases he
        simp [errInv]
      · simp only [Option.some.injEq, Prod.mk.injEq] at h
        obtain ⟨hout, hst⟩ := h
        subst hst
        refine ⟨presMod_refl st, ?_, fun mm hm => by rw [← hout] at hm; cases hm⟩
        intro e he
        rw [← hout] at he
        cases he
        simp [errInv]
      · obtain ⟨hp, her, _⟩ := ih C _ _ _ _ h
        refine ⟨hp, ?_, fun _ _ => trivial⟩
        intro e he
        have := her e he
        simpa [errInv] using this
    | runActs selfPath m acts =>
      simp only [interp] at h
      match acts with
      | [] =>
        simp only [Option.some.injEq, Prod.mk.injEq] at h
        obtain ⟨hout, hst⟩ := h
        subst hst
        refine ⟨presMod_refl st, ?_, fun _ _ => trivial⟩
        intro e he
        rw [← hout] at he
        cases he
      | Action.setExports v :: rest =>
        obtain ⟨hp, her, _⟩ := ih C _ _ _ _ h
        refine ⟨hp, ?_, fun _ _ => trivial⟩
        intro e he
        have := her e he
        simpa [errInv] using this
      | Action.throwErr :: rest =>
        simp only [Option.some.injEq, Prod.mk.injEq] at h
        obtain ⟨hout, hst⟩ := h
        subst hst
        refine ⟨presMod_refl st, ?_, fun _ _ => trivial⟩
        intro e he
        rw [← hout] at he
        cases he
        simp [errInv]
      | Action.req spec :: rest =>
        rcases seqOk_eq_some h with ⟨mm, st1, hsub, hk⟩ | ⟨e, st1, hsub, hout, hst⟩
        · obtain ⟨hp1, _, _⟩ := ih C _ st _ _ hsub
          obtain ⟨hp2, her, _⟩ := ih C _ st1 _ _ hk
          refine ⟨presMod_trans hp1 hp2, ?_, fun _ _ => trivial⟩
          intro e' he'
          have := her e' he'
          simpa [errInv] using this
        · obtain ⟨hp1, her, _⟩ := ih C _ st _ _ hsub
          subst hst
          refine ⟨hp1, ?_, fun mm hm => by rw [hout] at hm; cases hm⟩
          intro e' he'
          rw [hout] at he'
          cases he'
          have := her e rfl
          simpa [errInv] using this
      | Action.reqSet spec :: rest =>
        rcases seqOk_eq_some h with ⟨mm, st1, hsub, hk⟩ | ⟨e, st1, hsub, hout, hst⟩
        · obtain ⟨hp1, _, _⟩ := ih C _ st _ _ hsub
          obtain ⟨hp2, her, _⟩ := ih C _ _ _ _ hk
          refine ⟨presMod_trans hp1 hp2, ?_, fun _ _ => trivial⟩
          intro e' he'
          have := her e' he'
          simpa [errInv] using this
        · obtain ⟨hp1, her, _⟩ := ih C _ st _ _ hsub
          subst hst
          refine ⟨hp1, ?_, fun mm hm => by rw [hout] at hm; cases hm⟩
          intro e' he'
          rw [hout] at he'
          cases he'
          have := her e rfl
          simpa [errInv] using this

end Goja

namespace Goja

/-! ## Characterizations of `loadNative` and `loadModule` -/

/-- The state `loadNative` produces when a registered loader runs: a
fresh handle, cached under the (cleaned) specifier, whose exports the
loader has set to `v`; the loader's invocation counter is bumped. -/
def natResult (st : RState) (p : String) (v : JsVal) : RState :=
  { st with
      nextId := st.nextId + 1,
      modules := ainsert st.modules p st.nextId,
      exportsOf := ainsert (ainsert st.exportsOf st.nextId JsVal.emptyObj) st.nextId v,
      nativeCount := bump st.nativeCount p }

theorem loadNative_hit (C : Config) (st : RState) (p : String) (m : Nat)
    (h : alookup st.modules p = some m) : loadNative C st p = (Except.ok m, st) := by
  simp [loadNative, h]

theorem loadNative_miss (C : Config) (st : RState) (p : String)
    (h1 : alookup st.modules p = none) (h2 : nativeOf C p = none) :
    loadNative C st p = (Except.error Err.invalidModule, st) := by
  simp [loadNative, h1, h2]

theorem loadNative_load (C : Config) (st : RState) (p : String) (v : JsVal)
    (h1 : alookup st.modules p = none) (h2 : nativeOf C p = some v) :
    loadNative C st p = (Except.ok st.nextId, natResult st p v) := by
  simp only [loadNative, h1, h2, createModuleObject, natResult]

theorem loadNative_ok_lookup (C : Config) (st : RState) (p : String) (m : Nat) (st1 : RState)
    (h : loadNative C st p = (Except.ok m, st1)) : alookup st1.modules p = some m := by
  unfold loadNative at h
  split at h
  · rename_i mm hmm
    simp only [Prod.mk.injEq, Except.ok.injEq] at h
    obtain ⟨h1, h2⟩ := h
    subst h2
    rw [← h1]
    exact hmm
  · rename_i hmiss
    split at h
    · rename_i v hv
      simp only [Prod.mk.injEq, Except.ok.injEq] at h
      obtain ⟨h1, h2⟩ := h
      subst h2
      rw [← h1]
      exact alookup_ainsert_self _ _ _
    · simp only [Prod.mk.injEq] at h
      obtain ⟨h1, _⟩ := h
      cases h1

theorem loadNative_error (C : Config) (st : RState) (p : String) (e : Err) (st1 : RState)
    (h : loadNative C st p = (Except.error e, st1)) :
    st1 = st ∧ alookup st.modules p = none ∧ nativeOf C p = none := by
  unfold loadNative at h
  split at h
  · simp only [Prod.mk.injEq] at h
    obtain ⟨h1, _⟩ := h
    cases h1
  · rename_i hmiss
    split at h
    · simp only [Prod.mk.injEq] at h
      obtain ⟨h1, _⟩ := h
      cases h1
    · rename_i hv
      simp only [Prod.mk.injEq] at h
      obtain ⟨_, h2⟩ := h
      exact ⟨h2.symm, hmiss, hv⟩

/-- The state from which `loadModule` executes a module's source on a
cache miss: the fresh handle `st.nextId` is already cached under
`path` and its `exports` is the empty object. -/
def pendingState (st : RState) (path : String) : RState :=
  { st with
      nextId := st.nextId + 1,
      modules := ainsert st.modules path st.nextId,
      exportsOf := ainsert st.exportsOf st.nextId JsVal.emptyObj }

end Goja

namespace Goja

theorem acount_bump {α : Type} [DecidableEq α] (m : List (α × Nat)) (k : α) :
    acount (bump m k) k = acount m k + 1 := by
  simp [bump, acount, alookup_ainsert_self]

/-! ## Candidate-order characterizations

`fileCandidates`/`trySeq` and `nmCandidates`/`tryChain` restate, in
the spec's vocabulary, which candidates `loadAsFile` and the
node_modules ascent try and in which order; the theorems below prove
the interpreter equal to these characterizations. -/

/-- The candidate paths of `loadAsFile`, in trial order: the exact
path, then `.js`, then `.json` appended. -/
def fileCandidates (path : String) : List String :=
  [path, path ++ ".js", path ++ ".json"]

/-- Try `loadModule` on candidates in order: the first success is
returned and later candidates are not attempted; the last candidate's
outcome (success or failure) is returned as is. -/
def trySeq (fuel : Nat) (C : Config) : RState → List String → Option (Except Err Nat × RState)
  | _, [] => none
  | st, [p] => loadModule fuel C p st
  | st, p :: ps => tryNext (loadModule fuel C p st) (fun st1 => trySeq fuel C st1 ps)

/-- The directories the node_modules ascent visits, nearest level
first (one entry per loop iteration, `fuel` bounding the walk): the
candidate is the current directory itself when its base name is
already `node_modules`, otherwise `current/node_modules`; the walk
ends after a level whose directory is `..` or is its own parent. -/
def nmCandidates : Nat → String → List String
  | 0, _ => []
  | g + 1, start =>
    (if goBase start ≠ "node_modules" then goJoin start "node_modules" else start)
      :: (if start = ".." then []
          else if goDir start = start then []
          else nmCandidates g (goDir start))

/-- Try `loadNodeModule` on a list of directories in order: first
success wins; exhausting the list fails with `InvalidModuleError`. -/
def tryChain (C : Config) (path : String) :
    Nat → RState → List String → Option (Except Err Nat × RState)
  | 0, _, _ => none
  | _ + 1, st, [] => some (Except.error Err.invalidModule, st)
  | fuel + 1, st, d :: ds =>
    tryNext (loadNodeModule fuel C path d st) (fun st1 => tryChain C path fuel st1 ds)

/-- The ascent loop visits exactly the `nmCandidates` directories in
order. -/
theorem nodeLoop_eq_tryChain (C : Config) (path : String) :
    ∀ fuel start st, nodeLoop fuel C path start st
      = tryChain C path fuel st (nmCandidates fuel start) := by
  intro fuel
  induction fuel with
  | zero => intro start st; rfl
  | succ g ihg =>
    intro start st
    simp only [nodeLoop, interp, nmCandidates, tryChain, loadNodeModule]
    cases hsub : interp g C
        (Call.loadNodeModule path
          (if goBase start ≠ "node_modules" then goJoin start "node_modules" else start)) st with
    | none => simp [tryNext, hsub]
    | some r =>
      rcases r with ⟨res, st1⟩
      rcases res with e | mm
      · simp only [tryNext, hsub]
        by_cases hdd : start = ".."
        · cases g with
          | zero => rw [show (interp 0 C (Call.loadNodeModule path
              (if goBase start ≠ "node_modules" then goJoin start "node_modules" else start))
              st) = none from rfl] at hsub
                    cases hsub
          | succ g' => simp [hdd, tryChain]
        · by_cases hfix : goDir start = start
          · cases g with
            | zero => rw [show (interp 0 C (Call.loadNodeModule path
                (if goBase start ≠ "node_modules" then goJoin start "node_modules" else start))
                st) = none from rfl] at hsub
                      cases hsub
            | succ g' => simp [hdd, hfix, tryChain]
          · simp only [hdd, hfix, if_neg, if_false]
            have := ihg (goDir start) st1
            simp only [nodeLoop] at this
            simp [hdd, hfix, this]
      · simp [tryNext, hsub]

end Goja

namespace Goja

/-! ## Concrete scenarios

Small filesystems and registries used to instantiate the claims. -/

/-- Nothing on disk, nothing registered. -/
def emptyCfg : Config where
  getCompiledSource := fun _ => none
  readManifest := fun _ => ManifestRead.noFile
  nativeLocal := fun _ => none
  nativeGlobal := fun _ => none
  globalFolders := []

/-- A native module `name` (exports `5`) and a local file
`/x/name.js` (whose body would set exports to `7`). -/
def natShadowCfg : Config where
  getCompiledSource := fun s =>
    if s = "/x/name.js" then some (Prog.fn [Action.setExports (JsVal.num 7)]) else none
  readManifest := fun _ => ManifestRead.noFile
  nativeLocal := fun s => if s = "name" then some (JsVal.num 5) else none
  nativeGlobal := fun _ => none
  globalFolders := []

/-- A failing cyclic pair: `a.js` requires `./b` and then throws;
`b.js` cyclically requires `./a` while `a.js` is still executing. -/
def cycFailCfg : Config where
  getCompiledSource := fun s =>
    if s = "a.js" then some (Prog.fn [Action.req "./b", Action.throwErr])
    else if s = "b.js" then some (Prog.fn [Action.req "./a"])
    else none
  readManifest := fun _ => ManifestRead.noFile
  nativeLocal := fun _ => none
  nativeGlobal := fun _ => none
  globalFolders := []

/-- A successful cyclic pair: `a.js` sets its exports to `3` and then
requires `./b`; `b.js` cyclically requires `./a` and stores a
reference to the returned handle in its own exports. -/
def cycOkCfg : Config where
  getCompiledSource := fun s =>
    if s = "a.js" then
      some (Prog.fn [Action.setExports (JsVal.num 3), Action.req "./b"])
    else if s = "b.js" then some (Prog.fn [Action.reqSet "./a"])
    else none
  readManifest := fun _ => ManifestRead.noFile
  nativeLocal := fun _ => none
  nativeGlobal := fun _ => none
  globalFolders := []

/-- A configuration in which a nested load creates a path-cache entry
under the key `util` — the cleaned form of the specifier `./util` —
with a different handle: `/x/util.js` requires the bare `b`, found in
the global search folder `.`, and `b.js` requires `./util`, which
resolves (from `.`) to the plain file `util`. -/
def shadowCfg : Config where
  getCompiledSource := fun s =>
    if s = "/x/util.js" then some (Prog.fn [Action.req "b"])
    else if s = "b.js" then some (Prog.fn [Action.req "./util"])
    else if s = "util" then some (Prog.fn [])
    else none
  readManifest := fun _ => ManifestRead.noFile
  nativeLocal := fun _ => none
  nativeGlobal := fun _ => none
  globalFolders := ["."]

/-- One native module `fs` whose loader sets exports to `9`. -/
def natOnceCfg : Config where
  getCompiledSource := fun _ => none
  readManifest := fun _ => ManifestRead.noFile
  nativeLocal := fun s => if s = "fs" then some (JsVal.num 9) else none
  nativeGlobal := fun _ => none
  globalFolders := []

/-- A single file `/x/util.js` with an empty body. -/
def utilCfg : Config where
  getCompiledSource := fun s => if s = "/x/util.js" then some (Prog.fn []) else none
  readManifest := fun _ => ManifestRead.noFile
  nativeLocal := fun _ => none
  nativeGlobal := fun _ => none
  globalFolders := []

/-- Manifest variants for the directory-loading cases: `d1` has no
manifest, `d2` an unparsable one, `d3` an empty `main`, `d4` a `main`
of `lib/foo.js`; `d4/lib/foo.js` exists. -/
def manifestCfg : Config where
  getCompiledSource := fun s =>
    if s = "d4/lib/foo.js" then some (Prog.fn [])
    else if s = "d1/index.js" then some (Prog.fn [])
    else none
  readManifest := fun s =>
    if s = "d2/package.json" then ManifestRead.badJson
    else if s = "d3/package.json" then ManifestRead.parsed ""
    else if s = "d4/package.json" then ManifestRead.parsed "lib/foo.js"
    else ManifestRead.noFile
  nativeLocal := fun _ => none
  nativeGlobal := fun _ => none
  globalFolders := []

/-- A state whose path cache maps `m` to handle `7`. -/
def seededSt : RState :=
  { modules := [("m", 7)], nodeModules := [], nextId := 8,
    exportsOf := [], execCount := [], nativeCount := [] }

/-- The state after `resolve 10 utilCfg "/x" "./util" initState`:
handle `1` is cached under the joined request path `/x/util` and the
resolved file path `/x/util.js`; handle `0` was allocated for the
failed extension-less candidate and its cache entry removed. -/
def utilSt : RState :=
  { modules := [("/x/util", 1), ("/x/util.js", 1)], nodeModules := [], nextId := 2,
    exportsOf := [(1, JsVal.emptyObj), (0, JsVal.emptyObj)],
    execCount := [("/x/util.js", 1)], nativeCount := [] }

end Goja

namespace Goja

/-! ## Claim theorems -/

set_option maxRecDepth 40000

/-- C1: the claim says the native-module lookup uses the *original,
unnormalized* specifier, so `./name` loads the local file.  The code
(resolve.go:14,19) instead passes the cleaned specifier to
`loadNative`, so `require("./name")` — whose cleaned form is `name` —
returns the registered native module: the result is handle `0`
with the native loader's exports `5`, the loader ran once, and the
body of the on-disk `/x/name.js` (which exists in this configuration
and would set exports to `7`) never executed. -/
theorem relative_native_name_resolves_to_native_module :
    (resolve 10 natShadowCfg "/x" "./name" initState).map
        (fun r => (r.1, alookup r.2.exportsOf 0, acount r.2.execCount "/x/name.js",
                   acount r.2.nativeCount "name"))
      = some (Except.ok 0, some (JsVal.num 5), 0, 1)
    ∧ natShadowCfg.getCompiledSource (goJoin "/x" "name" ++ ".js")
      = some (Prog.fn [Action.setExports (JsVal.num 7)]) := by
  constructor
  · decide
  · decide

/-- C2 (counterexample): a failing `require("./a")` in which `a.js`
is cyclically required during its own execution leaves a residual
path-cache entry.  The load of `a.js` fails (its body throws after
requiring `./b`), its entry under `a.js` is duly evicted, and the
call returns an error — yet the joined-path alias `a`, inserted by
the nested cyclic `require("./a")` issued from `b.js`, survives with
the evicted handle `1`. -/
theorem failed_require_leaves_residual_cache_entry :
    (resolve 40 cycFailCfg "." "./a" initState).map
        (fun r => (r.1, alookup r.2.modules "a", alookup r.2.modules "a.js"))
      = some (Except.error (Err.sourceError "a/index.json"), some 1, none) := by
  decide

/-- C2 (amended): each failing `loadModule` removes its own path-cache
entry before returning, so the attempted file path is never left
cached by the failing load itself (the residual alias of the
counterexample is created by a nested *successful* cyclic require,
not by the failing load). -/
theorem loadModule_failure_erases_entry (fuel : Nat) (C : Config) (path : String)
    (st : RState) (e : Err) (st' : RState)
    (h : loadModule fuel C path st = some (Except.error e, st')) :
    alookup st'.modules path = none := by
  cases fuel with
  | zero => simp [loadModule, interp] at h
  | succ fuel =>
    simp only [loadModule, interp] at h
    split at h
    · simp at h
    · split at h
      · simp at h
      · simp at h
      · rename_i e3 st3 hsub
        simp only [Option.some.injEq, Prod.mk.injEq] at h
        obtain ⟨h1, h2⟩ := h
        rw [← h2]
        simpa using alookup_aerase_self st3.modules path

/-- Witness for C2's amended theorem: a missing file `nope` fails to
load and its candidate cache entry is gone afterwards. -/
theorem loadModule_failure_erases_entry_witness :
    alookup ({ modules := [], nodeModules := [], nextId := 1,
               exportsOf := [(0, JsVal.emptyObj)], execCount := [],
               nativeCount := [] } : RState).modules "nope" = none :=
  loadModule_failure_erases_entry 5 emptyCfg "nope" initState
    (Err.sourceError "nope") _ (by decide)

/-- C3: `loadModule` returns a cached (possibly in-progress) handle
unchanged, so a cyclic require of a path whose body is still
executing receives the identical handle; on a miss it runs the body
from `pendingState`, in which the fresh handle is already cached
under the path with empty-object exports.  The closed conjunct runs
the cyclic pair `a.js`/`b.js`: the call terminates with handle `1`,
`b`'s exports hold a reference to `a`'s handle `1` (reference
equality), `a`'s exports still hold the partial value `3` set before
the cycle, and each body executed exactly once. -/
theorem loadModule_preinserts_fresh_handle_and_reuses_it :
    (∀ (fuel : Nat) (C : Config) (path : String) (st : RState) (m : Nat),
        alookup st.modules path = some m →
        loadModule (fuel + 1) C path st = some (Except.ok m, st))
    ∧ (∀ (fuel : Nat) (C : Config) (path : String) (st : RState),
        alookup st.modules path = none →
        (loadModule (fuel + 1) C path st =
            (match loadModuleFile fuel C path st.nextId (pendingState st path) with
             | none => none
             | some (Except.ok _, st3) => some (Except.ok st.nextId, st3)
             | some (Except.error e, st3) =>
               some (Except.error e, { st3 with modules := aerase st3.modules path }))
          ∧ alookup (pendingState st path).modules path = some st.nextId
          ∧ alookup (pendingState st path).exportsOf st.nextId = some JsVal.emptyObj))
    ∧ ((resolve 40 cycOkCfg "." "./a" initState).map
          (fun r => (r.1, alookup r.2.exportsOf 3, alookup r.2.exportsOf 1,
                     acount r.2.execCount "a.js", acount r.2.execCount "b.js"))
        = some (Except.ok 1, some (JsVal.handleRef 1), some (JsVal.num 3), 1, 1)) := by
  refine ⟨?_, ?_, ?_⟩
  · intro fuel C path st m h
    simp [loadModule, interp, h]
  · intro fuel C path st h
    refine ⟨?_, alookup_ainsert_self _ _ _, alookup_ainsert_self _ _ _⟩
    simp only [loadModule, interp, h, loadModuleFile, createModuleObject, pendingState]
  · decide

/-- Witness for C3: a cached handle (`m ↦ 7`) is returned unchanged,
and the pre-execution state of a fresh load of `nope` has the fresh
handle `0` cached with empty exports. -/
theorem loadModule_preinserts_fresh_handle_witness :
    loadModule 5 emptyCfg "m" seededSt = some (Except.ok 7, seededSt)
    ∧ alookup (pendingState initState "nope").modules "nope" = some 0
    ∧ alookup (pendingState initState "nope").exportsOf 0 = some JsVal.emptyObj :=
  ⟨loadModule_preinserts_fresh_handle_and_reuses_it.1 4 emptyCfg "m" seededSt 7 (by decide),
   (loadModule_preinserts_fresh_handle_and_reuses_it.2.1 4 emptyCfg "nope" initState
      (by decide)).2.1,
   (loadModule_preinserts_fresh_handle_and_reuses_it.2.1 4 emptyCfg "nope" initState
      (by decide)).2.2⟩

end Goja

namespace Goja

/-- C4 (counterexample): the same relative specifier, resolved twice
from the same start directory, can return different handles.  In
`shadowCfg` the first `require("./util")` from `/x` loads
`/x/util.js` (handle `1`), but its body's nested requires cache the
plain file `util` (handle `4`) under the key `util` — the cleaned
form of `./util`.  The second call's `loadNative` lookup, keyed by
the cleaned specifier, then returns handle `4` instead of handle
`1`. -/
theorem resolve_same_specifier_twice_different_handles :
    ((resolve 40 shadowCfg "/x" "./util" initState).bind
        (fun r => (resolve 40 shadowCfg "/x" "./util" r.2).map
          (fun r2 => (r.1, r2.1))))
      = some (Except.ok 1, Except.ok 4)
    ∧ (1 : Nat) ≠ 4 := by
  constructor
  · decide
  · decide

/-- C4 (amended): resolving the same relative/absolute specifier
again from the same start directory, in the state a successful
resolve produced, returns the identical handle with the state —
hence every execution counter — unchanged, provided the path cache's
entry under the specifier's *cleaned* form is absent or is that same
handle (the pre-classification `loadNative` lookup is keyed by the
cleaned specifier and can otherwise shadow the joined path). -/
theorem resolve_relative_repeat_returns_same_handle (fuel : Nat) (C : Config)
    (cal spec : String) (m : Nat) (st st' : RState)
    (hrel : isRelativeSpec spec = true)
    (h1 : resolve (fuel + 1) C cal spec st = some (Except.ok m, st'))
    (hsh : alookup st'.modules (goPathClean spec) = none
           ∨ alookup st'.modules (goPathClean spec) = some m) :
    ∀ f2, resolve (f2 + 1) C cal spec st' = some (Except.ok m, st') := by
  intro f2
  rcases hsh with hsh | hsh
  · -- no entry under the cleaned specifier: the handle is under the
    -- joined path, and the first call's loadNative must have failed
    simp only [resolve, interp] at h1
    rw [if_neg (goPathClean_ne_empty spec)] at h1
    split at h1
    · rename_i mm st1 hln
      simp only [Option.some.injEq, Prod.mk.injEq, Except.ok.injEq] at h1
      obtain ⟨hmm, hst⟩ := h1
      subst hst
      have hlk := loadNative_ok_lookup C st _ _ _ hln
      rw [hmm] at hlk
      rw [hlk] at hsh
      cases hsh
    · rename_i e0 st0 hln
      obtain ⟨_, hmNone, hvNone⟩ := loadNative_error C st _ _ _ hln
      rw [if_pos hrel] at h1
      have hp : alookup st'.modules
          (goJoin (if beginsWith "/" spec = true then "/" else cal) (goPathClean spec))
          = some m := by
        split at h1
        · rename_i mm hhit
          simp only [Option.some.injEq, Prod.mk.injEq, Except.ok.injEq] at h1
          obtain ⟨hmm, hst⟩ := h1
          subst hst
          rw [hmm] at hhit
          exact hhit
        · rename_i hmiss
          rcases onOk_eq_some h1 with ⟨mm, st1, hsub, hout, hst⟩ | ⟨e, st1, hsub, hout, hst⟩
          · have hmm : m = mm := by simpa using hout
            subst hst
            rw [hmm]
            exact alookup_ainsert_self _ _ _
          · cases hout
      simp only [resolve, interp]
      rw [if_neg (goPathClean_ne_empty spec), loadNative_miss C st' _ hsh hvNone]
      simp [hrel, hp]
  · -- the cleaned specifier is cached with the same handle: the second
    -- call returns from loadNative's cache lookup
    simp only [resolve, interp]
    rw [if_neg (goPathClean_ne_empty spec), loadNative_hit C st' _ _ hsh]

/-- Witness for C4's amended theorem: requiring `./util` from `/x`
again, in the state the first call produced, returns handle `1` and
leaves the state untouched. -/
theorem resolve_relative_repeat_witness :
    resolve 10 utilCfg "/x" "./util" utilSt = some (Except.ok 1, utilSt) :=
  resolve_relative_repeat_returns_same_handle 9 utilCfg "/x" "./util" 1 initState utilSt
    (by decide) (by decide) (Or.inl (by decide)) 9

/-- C9: with a registered native loader (instance-local shadowing
global) and no cache entry under the specifier's cleaned form, the
first resolve returns a fresh handle cached under the cleaned
specifier, runs the loader exactly once (the invocation counter rises
by one), and every later resolve of any specifier cleaning to the
same string returns the identical handle with the state — hence the
loader counter — unchanged. -/
theorem resolve_native_loader_runs_once (fuel : Nat) (C : Config) (cal spec : String)
    (st : RState) (v : JsVal)
    (hm : alookup st.modules (goPathClean spec) = none)
    (hv : nativeOf C (goPathClean spec) = some v) :
    resolve (fuel + 1) C cal spec st
        = some (Except.ok st.nextId, natResult st (goPathClean spec) v)
    ∧ alookup (natResult st (goPathClean spec) v).modules (goPathClean spec) = some st.nextId
    ∧ acount (natResult st (goPathClean spec) v).nativeCount (goPathClean spec)
        = acount st.nativeCount (goPathClean spec) + 1
    ∧ (∀ (f2 : Nat) (cal2 spec2 : String), goPathClean spec2 = goPathClean spec →
        resolve (f2 + 1) C cal2 spec2 (natResult st (goPathClean spec) v)
          = some (Except.ok st.nextId, natResult st (goPathClean spec) v)) := by
  refine ⟨?_, alookup_ainsert_self _ _ _, acount_bump _ _, ?_⟩
  · simp only [resolve, interp]
    rw [if_neg (goPathClean_ne_empty spec), loadNative_load C st _ v hm hv]
  · intro f2 cal2 spec2 hspec
    have hhit : alookup (natResult st (goPathClean spec) v).modules (goPathClean spec2)
        = some st.nextId := by
      rw [hspec]
      exact alookup_ainsert_self _ _ _
    simp only [resolve, interp]
    rw [if_neg (goPathClean_ne_empty spec2), loadNative_hit C _ _ _ hhit]

/-- Witness for C9: the native `fs` loads once from a fresh state;
a later `require("./fs")` (cleaning to `fs`) returns the identical
handle `0` with the state unchanged. -/
theorem resolve_native_loader_runs_once_witness :
    resolve 10 natOnceCfg "." "fs" initState
        = some (Except.ok 0, natResult initState (goPathClean "fs") (JsVal.num 9))
    ∧ resolve 10 natOnceCfg "/z" "./fs" (natResult initState (goPathClean "fs") (JsVal.num 9))
        = some (Except.ok 0, natResult initState (goPathClean "fs") (JsVal.num 9)) :=
  ⟨(resolve_native_loader_runs_once 9 natOnceCfg "." "fs" initState (JsVal.num 9)
      (by decide) (by decide)).1,
   (resolve_native_loader_runs_once 9 natOnceCfg "." "fs" initState (JsVal.num 9)
      (by decide) (by decide)).2.2.2 9 "/z" "./fs" (by decide)⟩

end Goja

namespace Goja

/-- The state after five failed candidate loads of the bare specifier
`xyz` from `.` against an empty filesystem: five handles were
allocated and every candidate cache entry was removed again. -/
def xyzFailSt : RState :=
  { modules := [], nodeModules := [], nextId := 5,
    exportsOf := [(4, JsVal.emptyObj), (3, JsVal.emptyObj), (2, JsVal.emptyObj),
                  (1, JsVal.emptyObj), (0, JsVal.emptyObj)],
    execCount := [], nativeCount := [] }

/-- The state after loading the single file `/x/util.js`. -/
def utilJsSt : RState :=
  { modules := [("/x/util.js", 0)], nodeModules := [], nextId := 1,
    exportsOf := [(0, JsVal.emptyObj)],
    execCount := [("/x/util.js", 1)], nativeCount := [] }

/-- C5: `loadAsFile` equals trying `loadModule` on exactly the
candidates `path`, `path.js`, `path.json` in that order (`trySeq`
returns the first success and never attempts a later candidate), and
a successful exact-path load is returned as is, untouched by the
extension candidates. -/
theorem loadAsFile_candidate_order :
    (∀ (fuel : Nat) (C : Config) (path : String) (st : RState),
        loadAsFile (fuel + 1) C path st = trySeq fuel C st (fileCandidates path))
    ∧ (∀ (fuel : Nat) (C : Config) (path : String) (st : RState) (m : Nat) (st1 : RState),
        loadModule fuel C path st = some (Except.ok m, st1) →
        loadAsFile (fuel + 1) C path st = some (Except.ok m, st1)) := by
  constructor
  · intro fuel C path st
    rfl
  · intro fuel C path st m st1 h
    have e0 : loadAsFile (fuel + 1) C path st
        = tryNext (loadModule fuel C path st)
            (fun s => tryNext (loadModule fuel C (path ++ ".js") s)
              (fun s2 => loadModule fuel C (path ++ ".json") s2)) := rfl
    rw [e0, h]
    rfl

/-- Witness for C5: the exact file `/x/util.js` loads on the first
candidate and `loadAsFile` returns it unchanged. -/
theorem loadAsFile_candidate_order_witness :
    loadAsFile 10 utilCfg "/x/util.js" initState = some (Except.ok 0, utilJsSt)
    ∧ loadAsFile 10 utilCfg "/x/util" initState
        = trySeq 9 utilCfg initState (fileCandidates "/x/util") :=
  ⟨loadAsFile_candidate_order.2 9 utilCfg "/x/util.js" initState 0 utilJsSt (by decide),
   loadAsFile_candidate_order.1 9 utilCfg "/x/util" initState⟩

/-- C6: directory loading by cases on the manifest: a missing or
unparsable `path/package.json`, or one whose `main` is empty, falls
back to index loading on `path` (`index.js` then `index.json`);
otherwise file loading is attempted on `join(path, main)` and, if
that fails, index loading on the *joined main path*, not on the
original directory. -/
theorem loadAsDirectory_manifest_cases :
    (∀ (fuel : Nat) (C : Config) (path : String) (st : RState),
        C.readManifest (goJoin path "package.json") = ManifestRead.noFile →
        loadAsDirectory (fuel + 1) C path st = loadIndex fuel C path st)
    ∧ (∀ (fuel : Nat) (C : Config) (path : String) (st : RState),
        C.readManifest (goJoin path "package.json") = ManifestRead.badJson →
        loadAsDirectory (fuel + 1) C path st = loadIndex fuel C path st)
    ∧ (∀ (fuel : Nat) (C : Config) (path : String) (st : RState),
        C.readManifest (goJoin path "package.json") = ManifestRead.parsed "" →
        loadAsDirectory (fuel + 1) C path st = loadIndex fuel C path st)
    ∧ (∀ (fuel : Nat) (C : Config) (path mainv : String) (st : RState),
        C.readManifest (goJoin path "package.json") = ManifestRead.parsed mainv →
        mainv ≠ "" →
        loadAsDirectory (fuel + 1) C path st
          = tryNext (loadAsFile fuel C (goJoin path mainv) st)
              (fun st1 => loadIndex fuel C (goJoin path mainv) st1))
    ∧ (∀ (fuel : Nat) (C : Config) (path : String) (st : RState),
        loadIndex (fuel + 1) C path st
          = tryNext (loadModule fuel C (goJoin path "index.js") st)
              (fun st1 => loadModule fuel C (goJoin path "index.json") st1)) := by
  refine ⟨?_, ?_, ?_, ?_, ?_⟩
  · intro fuel C path st h
    simp only [loadAsDirectory, interp, h, loadIndex]
  · intro fuel C path st h
    simp only [loadAsDirectory, interp, h, loadIndex]
  · intro fuel C path st h
    simp only [loadAsDirectory, interp, h, loadIndex]
    simp
  · intro fuel C path mainv st h hne
    simp only [loadAsDirectory, interp, h]
    rw [if_neg hne]
    rfl
  · intro fuel C path st
    rfl

/-- Witness for C6: the four manifest situations of `manifestCfg`. -/
theorem loadAsDirectory_manifest_cases_witness :
    loadAsDirectory 5 manifestCfg "d1" initState = loadIndex 4 manifestCfg "d1" initState
    ∧ loadAsDirectory 5 manifestCfg "d2" initState = loadIndex 4 manifestCfg "d2" initState
    ∧ loadAsDirectory 5 manifestCfg "d3" initState = loadIndex 4 manifestCfg "d3" initState
    ∧ loadAsDirectory 5 manifestCfg "d4" initState
        = tryNext (loadAsFile 4 manifestCfg (goJoin "d4" "lib/foo.js") initState)
            (fun st1 => loadIndex 4 manifestCfg (goJoin "d4" "lib/foo.js") st1) :=
  ⟨loadAsDirectory_manifest_cases.1 4 manifestCfg "d1" initState (by decide),
   loadAsDirectory_manifest_cases.2.1 4 manifestCfg "d2" initState (by decide),
   loadAsDirectory_manifest_cases.2.2.1 4 manifestCfg "d3" initState (by decide),
   loadAsDirectory_manifest_cases.2.2.2.1 4 manifestCfg "d4" "lib/foo.js" initState
     (by decide) (by decide)⟩

/-- C7: `loadNodeModules` tries every configured global folder (in
order, via `tryGlobals`) before any ascent step; the ascent loop
equals trying `loadNodeModule` on exactly the `nmCandidates`
directories — nearest ancestor first, reusing the current directory
as candidate when its base name is already `node_modules`, stopping
after a directory that is `..` or its own parent — with the first
success returned and exhaustion failing with `InvalidModuleError`. -/
theorem loadNodeModules_globals_then_ascent :
    (∀ (fuel : Nat) (C : Config) (path start : String) (st : RState),
        loadNodeModules (fuel + 1) C path start st
          = tryNext (tryGlobals fuel C path C.globalFolders st)
              (fun st1 => nodeLoop fuel C path start st1))
    ∧ (∀ (fuel : Nat) (C : Config) (path d : String) (rest : List String) (st : RState),
        tryGlobals (fuel + 1) C path (d :: rest) st
          = tryNext (loadNodeModule fuel C path d st)
              (fun st1 => tryGlobals fuel C path rest st1))
    ∧ (∀ (fuel : Nat) (C : Config) (path start : String) (st : RState),
        nodeLoop fuel C path start st = tryChain C path fuel st (nmCandidates fuel start)) := by
  refine ⟨?_, ?_, ?_⟩
  · intro fuel C path start st
    rfl
  · intro fuel C path d rest st
    rfl
  · intro fuel C path start st
    exact nodeLoop_eq_tryChain C path fuel start st

/-- C8 (counterexample): a require in which nothing resolves does not
fail with a dedicated module-not-found error kind: for a bare
specifier the exhausted node_modules ascent (resolve.go:162) reports
`InvalidModuleError` itself, so the failure is *not* distinct from
the invalid-module error. -/
theorem bare_not_found_is_invalid_module_error :
    (resolve 10 emptyCfg "." "xyz" initState).map Prod.fst
      = some (Except.error Err.invalidModule) := by
  decide

/-- C8 (amended): a fully failed require does fail with an error
distinct from the illegal-module-name error — but the code has no
separate module-not-found kind: an exhausted `loadNodeModules`
reports the invalid-module error, and a failed relative/absolute
load propagates the source provider's error of the last candidate. -/
theorem resolve_failure_error_kinds :
    (∀ (fuel : Nat) (C : Config) (cal spec : String) (st : RState) (e : Err) (st' : RState),
        resolve fuel C cal spec st = some (Except.error e, st') →
        e ≠ Err.illegalModuleName)
    ∧ (∀ (fuel : Nat) (C : Config) (path start : String) (st : RState) (e : Err) (st' : RState),
        loadNodeModules fuel C path start st = some (Except.error e, st') →
        e = Err.invalidModule) := by
  constructor
  · intro fuel C cal spec st e st' h
    obtain ⟨_, her, _⟩ := interp_inv fuel C _ st _ _ h
    have := her e rfl
    simpa [errInv] using this
  · intro fuel C path start st e st' h
    obtain ⟨_, her, _⟩ := interp_inv fuel C _ st _ _ h
    have := her e rfl
    simpa [errInv] using this

/-- Witness for C8's amended theorem: the failed bare require of
`xyz` yields an error that is not `IllegalModuleNameError`, and the
exhausted ascent yields exactly `InvalidModuleError`. -/
theorem resolve_failure_error_kinds_witness :
    Err.invalidModule ≠ Err.illegalModuleName ∧ Err.invalidModule = Err.invalidModule :=
  ⟨resolve_failure_error_kinds.1 10 emptyCfg "." "xyz" initState Err.invalidModule
     xyzFailSt (by decide),
   resolve_failure_error_kinds.2 9 emptyCfg "xyz" "." initState Err.invalidModule
     xyzFailSt (by decide)⟩

end Goja
